import Mathlib

/-!
Verification development for the turso-mappers repository: a row-to-struct
mapping layer over a relational database client.  The embedding below
translates the runtime behaviour of the code in `src/src/lib.rs` and of the
code emitted by the derive macro in `src/turso-mappers-derive/src/lib.rs`.
-/

namespace TursoMappers

/-- Model of an IEEE-754 double (`f64`) by its 64-bit pattern.  The mapping
layer never computes with floats; it only copies them from a row cell into a
record field, so the bit pattern is a faithful carrier. -/
structure Float64 where
  bits : Nat
deriving DecidableEq, Repr

/-- The external tagged union `turso_core::Value` holding one column cell:
`Integer(i64)`, `Real(f64)`, `Text(string)`, `Blob(bytes)`, `Null`. -/
inductive Value where
  | Integer (i : Int)
  | Real (r : Float64)
  | Text (s : String)
  | Blob (b : List Nat)
  | Null
deriving DecidableEq, Repr

/-- `Value::as_integer`: `Some` exactly on the `Integer` variant. -/
def Value.as_integer : Value → Option Int
  | .Integer i => some i
  | _ => none

/-- `Value::as_text`: `Some` exactly on the `Text` variant. -/
def Value.as_text : Value → Option String
  | .Text s => some s
  | _ => none

/-- `Value::as_real`: `Some` exactly on the `Real` variant. -/
def Value.as_real : Value → Option Float64
  | .Real r => some r
  | _ => none

/-- `Value::as_blob`: `Some` exactly on the `Blob` variant. -/
def Value.as_blob : Value → Option (List Nat)
  | .Blob b => some b
  | _ => none

/-- Model of the external `turso::Error`.  The only failure the mapping layer
can provoke through the row accessor is an out-of-range index; the error is
otherwise opaque and merely propagated. -/
inductive TursoError where
  | OutOfRange (idx : Nat)
deriving DecidableEq, Repr

/-- The crate's error enum `TursoMapperError` from `src/src/lib.rs`.
`IoError` carries only its message here since the mapping layer treats the
wrapped `std::io::Error` as opaque. -/
inductive TursoMapperError where
  | ColumnNotFound (msg : String)
  | InvalidType (msg : String)
  | NullValue (msg : String)
  | ConversionError (msg : String)
  | IoError (msg : String)
  | TursoError (e : TursoError)
deriving DecidableEq, Repr

/-- A fetched row: an ordered sequence of typed values, addressable by
position only. -/
abbrev Row := List Value

/-- The external row accessor `Row::get_value(index)`: the value at the
zero-based index, or an error when the index is out of range. -/
def Row.get_value (row : Row) (idx : Nat) : Except TursoError Value :=
  match row.get? idx with
  | some v => Except.ok v
  | none => Except.error (TursoError.OutOfRange idx)

/-- The closed set of scalar kinds the derive macro supports: `i64`,
`String`, `f64`, `Vec<u8>`. -/
inductive TypeTag where
  | Integer64
  | Text
  | Real64
  | Blob
deriving DecidableEq, Repr

/-- A coerced scalar result, one constructor per supported target type. -/
inductive Scalar where
  | int (i : Int)
  | str (s : String)
  | real (r : Float64)
  | bytes (b : List Nat)
deriving DecidableEq, Repr

/-- The coercion the generated code performs for a declared kind: the
dispatch on `i64` / `String` / `f64` / `Vec<u8>` selecting `as_integer` /
`as_text` / `as_real` / `as_blob` (cloning where the accessor returns a
reference). -/
def coerce : TypeTag → Value → Option Scalar
  | .Integer64, v => (v.as_integer).map Scalar.int
  | .Text, v => (v.as_text).map Scalar.str
  | .Real64, v => (v.as_real).map Scalar.real
  | .Blob, v => (v.as_blob).map Scalar.bytes

/-- The suffix of the conversion-error message the generated code formats for
each kind: `"{} is not an integer"` and so on. -/
def kindNoun : TypeTag → String
  | .Integer64 => " is not an integer"
  | .Text => " is not a string"
  | .Real64 => " is not a real"
  | .Blob => " is not a blob"

/-- Whether a value's variant matches a scalar kind. -/
def variantMatches : TypeTag → Value → Bool
  | .Integer64, .Integer _ => true
  | .Text, .Text _ => true
  | .Real64, .Real _ => true
  | .Blob, .Blob _ => true
  | _, _ => false

/-- The scalar stored in a non-null value, used to state that extraction
returns a value equal to the stored one. -/
def storedScalar : Value → Option Scalar
  | .Integer i => some (.int i)
  | .Real r => some (.real r)
  | .Text s => some (.str s)
  | .Blob b => some (.bytes b)
  | .Null => none

/-- The extraction expression the derive macro emits for a NON-optional field
of kind `k` named `fname` at column index `idx`: fetch the value (the `?`
wraps a fetch failure as `TursoError` via the `From` impl), coerce it, and on
coercion failure fail with `ConversionError` naming the field and kind. -/
def extractRequired (k : TypeTag) (fname : String) (row : Row) (idx : Nat) :
    Except TursoMapperError Scalar :=
  match row.get_value idx with
  | .error e => .error (.TursoError e)
  | .ok v =>
    match coerce k v with
    | some s => .ok s
    | none => .error (.ConversionError (fname ++ kindNoun k))

/-- The extraction expression the derive macro emits for an `Option<T>` field
of wrapped kind `k` at column index `idx`: any fetch failure and any coercion
failure both resolve to `None`; a matching value resolves to `Some`. -/
def extractOptional (k : TypeTag) (row : Row) (idx : Nat) : Option Scalar :=
  match row.get_value idx with
  | .ok v => coerce k v
  | .error _ => none

/-- A compile-time field descriptor: name, declared scalar kind, and whether
the declared type is `Option`-wrapped. -/
structure FieldDesc where
  name : String
  tag : TypeTag
  optional : Bool
deriving DecidableEq, Repr

/-- A resolved field of a constructed record: a required scalar or an
optional one. -/
inductive FieldVal where
  | req (s : Scalar)
  | opt (s : Option Scalar)
deriving DecidableEq, Repr

/-- The body the derive macro generates: one extraction per field in declared
order, field `i` reading column `idx + i`, joined into a single all-or-nothing
construction (each required field's `?` aborts the whole construction). -/
def buildFields : List FieldDesc → Nat → Row → Except TursoMapperError (List FieldVal)
  | [], _, _ => .ok []
  | f :: fs, idx, row =>
    if f.optional then
      match buildFields fs (idx + 1) row with
      | .error e => .error e
      | .ok rest => .ok (.opt (extractOptional f.tag row idx) :: rest)
    else
      match extractRequired f.tag f.name row idx with
      | .error e => .error e
      | .ok s =>
        match buildFields fs (idx + 1) row with
        | .error e => .error e
        | .ok rest => .ok (.req s :: rest)

/-- The generated `try_from_row` for a record whose ordered field descriptors
are `fields`: by-index construction starting at column 0. -/
def try_from_row (fields : List FieldDesc) (row : Row) :
    Except TursoMapperError (List FieldVal) :=
  buildFields fields 0 row

/-- The successful resolution of one field, used to state all-or-nothing
construction: an optional field always resolves; a required field resolves
exactly when its extraction succeeds. -/
def fieldResult (f : FieldDesc) (row : Row) (idx : Nat) :
    Except TursoMapperError FieldVal :=
  if f.optional then .ok (.opt (extractOptional f.tag row idx))
  else
    match extractRequired f.tag f.name row idx with
    | .error e => .error e
    | .ok s => .ok (.req s)

/-- One insertion into the map underlying `ColumnIndices`: a `HashMap`
insert, overwriting any earlier binding of the same key.  Modelled as an
association list without duplicate keys; hashing only affects iteration
order, which the code never uses. -/
def insertAssoc : List (String × Nat) → String → Nat → List (String × Nat)
  | [], k, v => [(k, v)]
  | (k2, v2) :: rest, k, v =>
    if k2 = k then (k, v) :: rest else (k2, v2) :: insertAssoc rest k v

/-- `HashMap::get` on the modelled map. -/
def lookupAssoc : List (String × Nat) → String → Option Nat
  | [], _ => none
  | (k2, v2) :: rest, k => if k2 = k then some v2 else lookupAssoc rest k

/-- The `.iter().enumerate()` pairing of positions with column names,
starting at `i`. -/
def enumFrom (i : Nat) : List String → List (Nat × String)
  | [] => []
  | c :: cs => (i, c) :: enumFrom (i + 1) cs

/-- `ColumnIndices` from `src/src/lib.rs`: a map from column name to
zero-based position. -/
structure ColumnIndices where
  column_names : List (String × Nat)
deriving DecidableEq, Repr

/-- `ColumnIndices::new`: enumerate the columns and collect the
`(name, position)` pairs into a `HashMap` — successive inserts, a later
binding of a name overwriting an earlier one. -/
def ColumnIndices.new (columns : List String) : ColumnIndices :=
  ⟨(enumFrom 0 columns).foldl (fun m p => insertAssoc m p.2 p.1) []⟩

/-- `ColumnIndices::get_index`: the stored position for a name, or
`ColumnNotFound` naming the requested column. -/
def ColumnIndices.get_index (ci : ColumnIndices) (column_name : String) :
    Except TursoMapperError Nat :=
  match lookupAssoc ci.column_names column_name with
  | some i => .ok i
  | none => .error (.ColumnNotFound column_name)

/-- Reference definition for the registry's duplicate policy: the index of
the LAST occurrence of `name` in the column list, `none` when absent. -/
def lastIdxOf (name : String) : List String → Option Nat
  | [] => none
  | c :: cs =>
    match lastIdxOf name cs with
    | some j => some (j + 1)
    | none => if c = name then some 0 else none

/-- `MapRows::map_rows` from `src/src/lib.rs`: drain the cursor, a fetch
failure propagating through `?` as `TursoError`, a conversion failure
returning immediately, and on exhaustion return the converted rows in order.
The cursor is modelled as the sequence of outcomes its successive `next()`
calls yield before exhaustion. -/
def map_rows {T : Type} : List (Except TursoError Row) →
    (Row → Except TursoMapperError T) → Except TursoMapperError (List T)
  | [], _ => .ok []
  | .error e :: _, _ => .error (.TursoError e)
  | .ok r :: rest, f =>
    match f r with
    | .error e => .error e
    | .ok t =>
      match map_rows rest f with
      | .error e => .error e
      | .ok ts => .ok (t :: ts)

/-- Ordered field descriptors of the spec's end-to-end record
`{id: Integer64, name: Text, value: Real64}`. -/
def customerFields : List FieldDesc :=
  [⟨"id", .Integer64, false⟩, ⟨"name", .Text, false⟩, ⟨"value", .Real64, false⟩]

/-- First row of the spec's end-to-end scenario, `(1, "Charlie", 3.12)`; the
real is carried by its bit pattern. -/
def customerRow1 : Row :=
  [Value.Integer 1, Value.Text "Charlie", Value.Real ⟨0x4008F5C28F5C28F6⟩]

/-- Second row of the spec's end-to-end scenario, `(2, "Sarah", 0.99)`. -/
def customerRow2 : Row :=
  [Value.Integer 2, Value.Text "Sarah", Value.Real ⟨0x3FEFAE147AE147AE⟩]

/-- The record the generated mapping produces from a customer row, used as
the per-row conversion result in the C9 witness. -/
def customerRecord (r : Row) : List FieldVal :=
  match try_from_row customerFields r with
  | .ok vals => vals
  | .error _ => []

/-- The binding a sequence of enumerated `(position, name)` inserts leaves
for a name: the value of the LAST pair carrying that name, `none` when no
pair does.  Auxiliary for characterising the `HashMap` collect. -/
def lastLookupPairs : List (Nat × String) → String → Option Nat
  | [], _ => none
  | p :: ps, k =>
    match lastLookupPairs ps k with
    | some j => some j
    | none => if p.2 = k then some p.1 else none

/-- Claim C1: for every supported non-optional scalar kind and every typed
value, the generated by-index extraction succeeds with a value equal to the
stored one exactly when the value's variant matches the kind, and on every
mismatched variant (including Null) it fails with the invalid-type condition
(reported by the generated code as `ConversionError`, the spec's combined
invalid-type / conversion-error kind), never a default value; the extraction
is a total function, so it never panics. -/
theorem extractRequired_exact_match (k : TypeTag) (fname : String) (row : Row)
    (idx : Nat) (v : Value) (h : row.get_value idx = Except.ok v) :
    (variantMatches k v = true →
      ∃ s, storedScalar v = some s ∧
        extractRequired k fname row idx = Except.ok s) ∧
    (variantMatches k v = false →
      extractRequired k fname row idx =
        Except.error (.ConversionError (fname ++ kindNoun k))) := by
  unfold extractRequired
  rw [h]
  cases k <;> cases v <;>
    simp [variantMatches, coerce, Value.as_integer, Value.as_text,
      Value.as_real, Value.as_blob, storedScalar, kindNoun]

/-- Concrete instance of the C1 theorem at a one-cell integer row. -/
theorem extractRequired_exact_match_witness :
    (Row.get_value [Value.Integer 7] 0 = Except.ok (Value.Integer 7)) ∧
    ((variantMatches .Integer64 (Value.Integer 7) = true →
      ∃ s, storedScalar (Value.Integer 7) = some s ∧
        extractRequired .Integer64 "id" [Value.Integer 7] 0 = Except.ok s) ∧
    (variantMatches .Integer64 (Value.Integer 7) = false →
      extractRequired .Integer64 "id" [Value.Integer 7] 0 =
        Except.error (.ConversionError ("id" ++ kindNoun .Integer64)))) :=
  ⟨rfl, extractRequired_exact_match .Integer64 "id" [Value.Integer 7] 0
    (Value.Integer 7) rfl⟩

/-- Claim C2: for every optional-wrapped scalar kind, the generated
extraction yields `none` when the underlying value is Null, yields `none`
(not an error) when the value is present but of a mismatched variant, and
yields `some` of the stored value when the variant matches. -/
theorem extractOptional_permissive_policy (k : TypeTag) (row : Row)
    (idx : Nat) (v : Value) (h : row.get_value idx = Except.ok v) :
    (v = Value.Null → extractOptional k row idx = none) ∧
    (variantMatches k v = false → extractOptional k row idx = none) ∧
    (variantMatches k v = true →
      ∃ s, storedScalar v = some s ∧ extractOptional k row idx = some s) := by
  unfold extractOptional
  rw [h]
  cases k <;> cases v <;>
    simp [variantMatches, coerce, Value.as_integer, Value.as_text,
      Value.as_real, Value.as_blob, storedScalar]

/-- Concrete instance of the C2 theorem: a Text cell under an optional
Real64 field. -/
theorem extractOptional_permissive_policy_witness :
    (Row.get_value [Value.Text "x"] 0 = Except.ok (Value.Text "x")) ∧
    ((Value.Text "x" = Value.Null →
      extractOptional .Real64 [Value.Text "x"] 0 = none) ∧
    (variantMatches .Real64 (Value.Text "x") = false →
      extractOptional .Real64 [Value.Text "x"] 0 = none) ∧
    (variantMatches .Real64 (Value.Text "x") = true →
      ∃ s, storedScalar (Value.Text "x") = some s ∧
        extractOptional .Real64 [Value.Text "x"] 0 = some s)) :=
  ⟨rfl, extractOptional_permissive_policy .Real64 [Value.Text "x"] 0
    (Value.Text "x") rfl⟩

/-- Claim C6: for every optional field, a failing fetch at the field's index
(in this model, exactly an out-of-range index) resolves the field to `none`
rather than propagating an error. -/
theorem extractOptional_fetch_failure_absent (k : TypeTag) (row : Row)
    (idx : Nat) (e : TursoError) (h : row.get_value idx = Except.error e) :
    extractOptional k row idx = none := by
  unfold extractOptional
  rw [h]

/-- Concrete instance of the C6 theorem: fetching index 0 of an empty row
fails, and the optional extraction yields `none`. -/
theorem extractOptional_fetch_failure_absent_witness :
    (Row.get_value [] 0 = Except.error (TursoError.OutOfRange 0)) ∧
    extractOptional .Integer64 [] 0 = none :=
  ⟨rfl, extractOptional_fetch_failure_absent .Integer64 [] 0
    (TursoError.OutOfRange 0) rfl⟩

/-- Claim C7: for every non-optional field, a coercion failure fails the
whole extraction with a conversion-error whose message names the field and
the expected kind, while a failing fetch (index out of range) is propagated
as the `TursoError` condition, which is distinct from `ConversionError`. -/
theorem extractRequired_error_conditions (k : TypeTag) (fname : String)
    (row : Row) (idx : Nat) :
    (∀ v, row.get_value idx = Except.ok v → variantMatches k v = false →
      extractRequired k fname row idx =
        Except.error (.ConversionError (fname ++ kindNoun k))) ∧
    (∀ e, row.get_value idx = Except.error e →
      extractRequired k fname row idx =
        Except.error (.TursoError e) ∧
      ∀ msg, TursoMapperError.TursoError e ≠
        TursoMapperError.ConversionError msg) := by
  constructor
  · intro v h hm
    unfold extractRequired
    rw [h]
    cases k <;> cases v <;>
      simp_all [variantMatches, coerce, Value.as_integer, Value.as_text,
        Value.as_real, Value.as_blob, kindNoun]
  · intro e h
    refine ⟨?_, ?_⟩
    · unfold extractRequired
      rw [h]
    · intro msg hcon
      cases hcon

/-- Concrete instance of the C7 theorem at index 1 of a one-cell row: the
coercion-failure arm applies at index 0 and the fetch-failure arm at
index 1. -/
theorem extractRequired_error_conditions_witness :
    (extractRequired .Integer64 "id" [Value.Text "x"] 0 =
      Except.error (.ConversionError ("id" ++ kindNoun .Integer64))) ∧
    (extractRequired .Integer64 "id" [Value.Text "x"] 1 =
      Except.error (.TursoError (TursoError.OutOfRange 1)) ∧
    ∀ msg, TursoMapperError.TursoError (TursoError.OutOfRange 1) ≠
      TursoMapperError.ConversionError msg) :=
  ⟨(extractRequired_error_conditions .Integer64 "id" [Value.Text "x"] 0).1
      (Value.Text "x") rfl rfl,
   (extractRequired_error_conditions .Integer64 "id" [Value.Text "x"] 1).2
      (TursoError.OutOfRange 1) rfl⟩

/-- Claim C8: for every conversion function, mapping over an exhausted
cursor (one yielding no rows) returns the empty sequence, not a failure. -/
theorem map_rows_empty_cursor {T : Type}
    (f : Row → Except TursoMapperError T) :
    map_rows [] f = Except.ok [] := rfl

/-- Claim C3: for every cursor and conversion function, if the conversion of
some fetched row fails then `map_rows` returns an overall failure; the
failure result carries no partial sequence, so no previously converted rows
are observable by the caller. -/
theorem map_rows_whole_operation_failure {T : Type}
    (cursor : List (Except TursoError Row))
    (f : Row → Except TursoMapperError T)
    (h : ∃ r e, Except.ok r ∈ cursor ∧ f r = Except.error e) :
    ∃ e2, map_rows cursor f = Except.error e2 := by
  induction cursor with
  | nil =>
    obtain ⟨r, e, hmem, _⟩ := h
    cases hmem
  | cons c rest ih =>
    obtain ⟨r, e, hmem, hf⟩ := h
    rcases c with e3 | r2
    · exact ⟨.TursoError e3, rfl⟩
    · rcases List.mem_cons.mp hmem with heq | hmem2
      · have hr : r = r2 := by
          injection heq
        subst hr
        exact ⟨e, by simp [map_rows, hf]⟩
      · rcases hf2 : f r2 with e4 | t
        · exact ⟨e4, by simp [map_rows, hf2]⟩
        · obtain ⟨e5, h5⟩ := ih ⟨r, e, hmem2, hf⟩
          exact ⟨e5, by simp [map_rows, hf2, h5]⟩

/-- Concrete instance of the C3 theorem: a two-row cursor whose second row
fails integer conversion. -/
theorem map_rows_whole_operation_failure_witness :
    ∃ e2, map_rows [Except.ok [Value.Integer 1], Except.ok [Value.Text "x"]]
      (fun r => extractRequired .Integer64 "id" r 0) = Except.error e2 :=
  map_rows_whole_operation_failure
    [Except.ok [Value.Integer 1], Except.ok [Value.Text "x"]]
    (fun r => extractRequired .Integer64 "id" r 0)
    ⟨[Value.Text "x"], .ConversionError "id is not an integer",
      List.mem_cons_of_mem _ (List.mem_cons_self _ _), rfl⟩

/-- Claim C9: for every cursor yielding rows r1..rn and every conversion
function succeeding on each row, `map_rows` returns exactly the converted
rows in row order upon cursor exhaustion. -/
theorem map_rows_success_order {T : Type} (rows : List Row)
    (f : Row → Except TursoMapperError T) (g : Row → T)
    (h : ∀ r, r ∈ rows → f r = Except.ok (g r)) :
    map_rows (rows.map Except.ok) f = Except.ok (rows.map g) := by
  induction rows with
  | nil => rfl
  | cons r rest ih =>
    have hr : f r = Except.ok (g r) := h r (List.mem_cons_self r rest)
    have hrest : map_rows (rest.map Except.ok) f = Except.ok (rest.map g) :=
      ih (fun r2 hm => h r2 (List.mem_cons_of_mem _ hm))
    simp [map_rows, hr, hrest]

/-- Concrete instance of the C9 theorem: the spec's end-to-end scenario, two
customer rows mapped in order by the generated `try_from_row`. -/
theorem map_rows_success_order_witness :
    map_rows (List.map Except.ok [customerRow1, customerRow2])
      (try_from_row customerFields) =
    Except.ok (List.map customerRecord [customerRow1, customerRow2]) :=
  map_rows_success_order [customerRow1, customerRow2]
    (try_from_row customerFields) customerRecord
    (by
      intro r hr
      rcases List.mem_cons.mp hr with h1 | hr2
      · subst h1; rfl
      · rcases List.mem_cons.mp hr2 with h2 | h3
        · subst h2; rfl
        · cases h3)

/-- Looking a key up after one insert: the inserted binding when the keys
agree, the previous map otherwise. -/
theorem lookup_insertAssoc (m : List (String × Nat)) (k k2 : String) (v : Nat) :
    lookupAssoc (insertAssoc m k v) k2 =
      if k = k2 then some v else lookupAssoc m k2 := by
  induction m with
  | nil =>
    simp only [insertAssoc, lookupAssoc]
  | cons p rest ih =>
    obtain ⟨k3, v3⟩ := p
    by_cases h1 : k3 = k
    · subst h1
      by_cases h2 : k3 = k2 <;> simp [insertAssoc, lookupAssoc, h2]
    · by_cases h2 : k3 = k2
      · subst h2
        have h3 : ¬ k = k3 := fun h => h1 h.symm
        simp [insertAssoc, lookupAssoc, h1, h3]
      · simp [insertAssoc, lookupAssoc, h1, h2, ih]

/-- Folding enumerated inserts over a map: the resulting lookup is the last
pair carrying the key, falling back to the starting map. -/
theorem lookup_foldl_insert (ps : List (Nat × String))
    (m : List (String × Nat)) (k : String) :
    lookupAssoc (ps.foldl (fun m2 p => insertAssoc m2 p.2 p.1) m) k =
      match lastLookupPairs ps k with
      | some j => some j
      | none => lookupAssoc m k := by
  induction ps generalizing m with
  | nil => rfl
  | cons p ps ih =>
    simp only [List.foldl, lastLookupPairs]
    rw [ih]
    cases hl : lastLookupPairs ps k with
    | some j => simp
    | none =>
      simp only [lookup_insertAssoc]
      by_cases h : p.2 = k <;> simp [h]

/-- The last pair of an enumeration starting at `i` carrying a name sits
`i` positions above the last occurrence of the name in the column list. -/
theorem lastLookupPairs_enumFrom (cols : List String) (i : Nat) (k : String) :
    lastLookupPairs (enumFrom i cols) k = (lastIdxOf k cols).map (· + i) := by
  induction cols generalizing i with
  | nil => rfl
  | cons c cs ih =>
    simp only [enumFrom, lastLookupPairs, lastIdxOf, ih]
    cases lastIdxOf k cs with
    | some j =>
      simp [Nat.add_assoc, Nat.add_comm 1 i]
    | none =>
      by_cases h : c = k <;> simp [h]

/-- Characterisation of `get_index` after `new`: the registry resolves a name
to the index of its last occurrence in the column list, and to
`ColumnNotFound` when the name is absent. -/
theorem get_index_eq_lastIdxOf (cols : List String) (name : String) :
    (ColumnIndices.new cols).get_index name =
      match lastIdxOf name cols with
      | some i => Except.ok i
      | none => Except.error (.ColumnNotFound name) := by
  unfold ColumnIndices.get_index ColumnIndices.new
  rw [lookup_foldl_insert, lastLookupPairs_enumFrom]
  cases lastIdxOf name cols with
  | some j => simp
  | none => simp [lookupAssoc]

/-- A last-occurrence index points at a cell holding the name. -/
theorem lastIdxOf_get (cols : List String) (name : String) (i : Nat)
    (h : lastIdxOf name cols = some i) : cols.get? i = some name := by
  induction cols generalizing i with
  | nil => cases h
  | cons c cs ih =>
    simp only [lastIdxOf] at h
    cases hl : lastIdxOf name cs with
    | some j =>
      rw [hl] at h
      cases h
      simpa using ih j hl
    | none =>
      rw [hl] at h
      by_cases hc : c = name
      · rw [if_pos hc] at h
        cases h
        simp [hc]
      · rw [if_neg hc] at h
        cases h

/-- A name present in the column list has a last occurrence. -/
theorem lastIdxOf_isSome_of_mem (cols : List String) (name : String)
    (h : name ∈ cols) : ∃ i, lastIdxOf name cols = some i := by
  induction cols with
  | nil => cases h
  | cons c cs ih =>
    simp only [lastIdxOf]
    cases hl : lastIdxOf name cs with
    | some j => exact ⟨j + 1, rfl⟩
    | none =>
      rcases List.mem_cons.mp h with heq | hmem
      · exact ⟨0, by simp [heq.symm]⟩
      · obtain ⟨j, hj⟩ := ih hmem
        rw [hj] at hl
        cases hl

/-- A name absent from the column list has no last occurrence. -/
theorem lastIdxOf_eq_none_of_not_mem (cols : List String) (name : String)
    (h : name ∉ cols) : lastIdxOf name cols = none := by
  induction cols with
  | nil => rfl
  | cons c cs ih =>
    have hc : c ≠ name := fun heq => h (List.mem_cons.mpr (Or.inl heq.symm))
    have hcs : name ∉ cs := fun hm => h (List.mem_cons.mpr (Or.inr hm))
    simp only [lastIdxOf, ih hcs]
    simp [hc]

/-- Claim C5: for every registry built from an ordered column list and every
name, `get_index` succeeds with a zero-based position holding that column
name when the name is present, and fails with `ColumnNotFound` naming the
requested column when it is absent. -/
theorem get_index_resolution (cols : List String) (name : String) :
    (name ∈ cols → ∃ i, (ColumnIndices.new cols).get_index name = Except.ok i ∧
      cols.get? i = some name) ∧
    (name ∉ cols → (ColumnIndices.new cols).get_index name =
      Except.error (.ColumnNotFound name)) := by
  constructor
  · intro hmem
    obtain ⟨i, hi⟩ := lastIdxOf_isSome_of_mem cols name hmem
    refine ⟨i, ?_, lastIdxOf_get cols name i hi⟩
    rw [get_index_eq_lastIdxOf, hi]
  · intro hnot
    rw [get_index_eq_lastIdxOf, lastIdxOf_eq_none_of_not_mem cols name hnot]

/-- Concrete instance of the C5 theorem over columns `[id, name, value]`:
`name` resolves to a position holding it and `missing` fails. -/
theorem get_index_resolution_witness :
    (∃ i, (ColumnIndices.new ["id", "name", "value"]).get_index "name" =
      Except.ok i ∧ ["id", "name", "value"].get? i = some "name") ∧
    (ColumnIndices.new ["id", "name", "value"]).get_index "missing" =
      Except.error (.ColumnNotFound "missing") :=
  ⟨(get_index_resolution ["id", "name", "value"] "name").1 (by decide),
   (get_index_resolution ["id", "name", "value"] "missing").2 (by decide)⟩

/-- Claim C10: for every column list, the registry maps each present name to
the position of its LAST occurrence in column order (so a duplicated name
resolves last-wins and an unduplicated name resolves to its unique position)
and each absent name to `ColumnNotFound`. -/
theorem get_index_last_wins (cols : List String) (name : String) :
    (ColumnIndices.new cols).get_index name =
      match lastIdxOf name cols with
      | some i => Except.ok i
      | none => Except.error (.ColumnNotFound name) := by
  unfold ColumnIndices.get_index ColumnIndices.new
  rw [lookup_foldl_insert, lastLookupPairs_enumFrom]
  cases lastIdxOf name cols with
  | some j => simp
  | none => simp [lookupAssoc]

/-- Generated construction starting at column `idx` is all-or-nothing: it
either fails outright or returns one resolved value per field, field `j`
resolved from column `idx + j`. -/
theorem buildFields_all_or_nothing (fields : List FieldDesc) (idx : Nat)
    (row : Row) :
    (∃ e, buildFields fields idx row = Except.error e) ∨
    (∃ vals, buildFields fields idx row = Except.ok vals ∧
      vals.length = fields.length ∧
      ∀ j fj, fields.get? j = some fj →
        ∃ fv, vals.get? j = some fv ∧
          fieldResult fj row (idx + j) = Except.ok fv) := by
  induction fields generalizing idx with
  | nil =>
    right
    refine ⟨[], rfl, rfl, ?_⟩
    intro j fj hj
    cases hj
  | cons f fs ih =>
    by_cases hopt : f.optional
    · rcases ih (idx + 1) with ⟨e, he⟩ | ⟨vals, hv, hlen, hall⟩
      · left
        exact ⟨e, by simp [buildFields, hopt, he]⟩
      · right
        refine ⟨.opt (extractOptional f.tag row idx) :: vals, ?_, ?_, ?_⟩
        · simp [buildFields, hopt, hv]
        · simp [hlen]
        · intro j fj hj
          cases j with
          | zero =>
            simp only [List.get?_cons_zero, Option.some.injEq] at hj
            subst hj
            exact ⟨_, rfl, by simp [fieldResult, hopt]⟩
          | succ j2 =>
            simp only [List.get?_cons_succ] at hj
            obtain ⟨fv, hfv, hres⟩ := hall j2 fj hj
            refine ⟨fv, by simpa using hfv, ?_⟩
            have harith : idx + (j2 + 1) = (idx + 1) + j2 := by omega
            rw [harith]
            exact hres
    · rcases hext : extractRequired f.tag f.name row idx with e | s
      · left
        exact ⟨e, by simp [buildFields, hopt, hext]⟩
      · rcases ih (idx + 1) with ⟨e, he⟩ | ⟨vals, hv, hlen, hall⟩
        · left
          exact ⟨e, by simp [buildFields, hopt, hext, he]⟩
        · right
          refine ⟨.req s :: vals, ?_, ?_, ?_⟩
          · simp [buildFields, hopt, hext, hv]
          · simp [hlen]
          · intro j fj hj
            cases j with
            | zero =>
              simp only [List.get?_cons_zero, Option.some.injEq] at hj
              subst hj
              exact ⟨_, rfl, by simp [fieldResult, hopt, hext]⟩
            | succ j2 =>
              simp only [List.get?_cons_succ] at hj
              obtain ⟨fv, hfv, hres⟩ := hall j2 fj hj
              refine ⟨fv, by simpa using hfv, ?_⟩
              have harith : idx + (j2 + 1) = (idx + 1) + j2 := by omega
              rw [harith]
              exact hres

/-- Claim C4: for every row, a single by-index mapping call either fails and
produces no record, or succeeds with the whole record: one resolved value
per field, each equal to that field's extraction result at its own column
index; no partially constructed record is observable. -/
theorem try_from_row_all_or_nothing (fields : List FieldDesc) (row : Row) :
    (∃ e, try_from_row fields row = Except.error e) ∨
    (∃ vals, try_from_row fields row = Except.ok vals ∧
      vals.length = fields.length ∧
      ∀ j fj, fields.get? j = some fj →
        ∃ fv, vals.get? j = some fv ∧
          fieldResult fj row j = Except.ok fv) := by
  have h := buildFields_all_or_nothing fields 0 row
  simpa [try_from_row, Nat.zero_add] using h

/-- Concrete instance of the C4 theorem at the end-to-end customer row. -/
theorem try_from_row_all_or_nothing_witness :
    (∃ e, try_from_row customerFields customerRow1 = Except.error e) ∨
    (∃ vals, try_from_row customerFields customerRow1 = Except.ok vals ∧
      vals.length = customerFields.length ∧
      ∀ j fj, customerFields.get? j = some fj →
        ∃ fv, vals.get? j = some fv ∧
          fieldResult fj customerRow1 j = Except.ok fv) :=
  try_from_row_all_or_nothing customerFields customerRow1

end TursoMappers
